import Mathlib

/-!
Verification of the auction bot engine (domain.py, repositories.py,
services.py) against its specification.

Modelling conventions:
- time is a natural number of minutes; one hour is 60 minutes;
- prices and bid amounts are integers;
- uuid4 identifiers are natural numbers supplied by the caller
  (freshness is an explicit hypothesis where it matters);
- the persisted sqlite state is a record of the users table and the
  auctions table (each auction row carrying its participants rows and
  bids rows);
- async methods are embedded as pure state transformers; notification
  calls are omitted since they do not touch the persisted state.
-/

/-- Embeds the AuctionStatus enum from domain.py. -/
inductive AuctionStatus where
  | draft
  | active
  | completed
  | cancelled
  | scheduled
deriving DecidableEq, Repr

/-- Embeds the User dataclass from domain.py (profile fields that no
claim touches are dropped). -/
structure User where
  user_id : Nat
  username : String
  is_admin : Bool
  is_blocked : Bool
deriving DecidableEq, Repr

/-- Embeds the Bid dataclass from domain.py. -/
structure Bid where
  bid_id : Nat
  auction_id : Nat
  user_id : Nat
  username : String
  amount : Int
  timestamp : Nat
deriving DecidableEq, Repr

/-- Embeds the Auction dataclass from domain.py (text metadata fields
that no claim touches are dropped; participants is the set of rows of
the auction_participants table, bids the rows of the bids table in
insertion order; current_leader is derived from bids on read). -/
structure Auction where
  auction_id : Nat
  start_price : Int
  current_price : Int
  status : AuctionStatus
  creator_id : Nat
  duration_hours : Nat
  end_time : Option Nat
  created_at : Nat
  participants : List Nat
  bids : List Bid
deriving DecidableEq, Repr

def minutesPerHour : Nat := 60

/-- Embeds Auction.__post_init__ from domain.py: the duration is
coerced up to at least one hour, and an active auction missing its end
time gets end_time = created_at + duration. -/
def auction_post_init (a : Auction) : Auction :=
  let d := if a.duration_hours < 1 then 1 else a.duration_hours
  let e := if a.status = AuctionStatus.active ∧ a.end_time = none then
             some (a.created_at + d * minutesPerHour)
           else a.end_time
  { a with duration_hours := d, end_time := e }

/-- Embeds the Auction.is_active property from domain.py: status is
active, end_time is set, and the current time is before it. -/
def is_active (a : Auction) (now : Nat) : Bool :=
  if a.status = AuctionStatus.active then
    match a.end_time with
    | some t => decide (now < t)
    | none => false
  else false

/-- The persisted state: the users table and the auctions table. -/
structure DB where
  users : List User
  auctions : List Auction
deriving DecidableEq, Repr

/-- Embeds SQLiteUserRepository.get_user: lookup by primary key. -/
def get_user (db : DB) (user_id : Nat) : Option User :=
  db.users.find? (fun u => u.user_id == user_id)

/-- Embeds SQLiteAuctionRepository.get_auction: lookup by primary key
(the row is returned together with its participants and bids). -/
def get_auction (db : DB) (auction_id : Nat) : Option Auction :=
  db.auctions.find? (fun a => a.auction_id == auction_id)

/-- The ORDER BY created_at comparison used by the auction list
queries. -/
def createdLE (a b : Auction) : Prop := a.created_at ≤ b.created_at

instance : DecidableRel createdLE := fun _ _ => Nat.decLe _ _

instance : IsTotal Auction createdLE := ⟨fun a b => Nat.le_total a.created_at b.created_at⟩

instance : IsTrans Auction createdLE := ⟨fun _ _ _ => Nat.le_trans⟩

/-- Embeds SQLiteAuctionRepository.get_active_auctions: rows with
status active, ordered by created_at. -/
def get_active_auctions (db : DB) : List Auction :=
  List.insertionSort createdLE
    (db.auctions.filter (fun a => decide (a.status = AuctionStatus.active)))

/-- Embeds SQLiteAuctionRepository.get_scheduled_auctions: rows with
status scheduled, ordered by created_at. -/
def get_scheduled_auctions (db : DB) : List Auction :=
  List.insertionSort createdLE
    (db.auctions.filter (fun a => decide (a.status = AuctionStatus.scheduled)))

/-- An UPDATE ... WHERE auction_id = aid over the auctions table. -/
def update_matching (l : List Auction) (aid : Nat) (f : Auction → Auction) : List Auction :=
  l.map (fun a => if a.auction_id = aid then f a else a)

/-- Embeds SQLiteAuctionRepository.update_auction_status (repositories.py
lines 294-302): set only the status column. -/
def update_auction_status (db : DB) (aid : Nat) (status : AuctionStatus) : Bool × DB :=
  (true, { db with auctions := update_matching db.auctions aid (fun a => { a with status := status }) })

/-- Modelled from the spec: the repository method
update_auction_status_and_end_time is called from services.py line 92
but its implementation is missing from src. Spec section 6 declares
UpdateAuctionStatusAndEndTime(id, status, endTime) -> ok, storing the
given status and end time on the auction row. -/
def update_auction_status_and_end_time (db : DB) (aid : Nat) (status : AuctionStatus)
    (e : Option Nat) : Bool × DB :=
  let l := update_matching db.auctions aid (fun a => { a with status := status, end_time := e })
  (true, { db with auctions := l })

/-- Modelled from the spec: the repository method update_auction_price
is called from services.py line 197 but its implementation is missing
from src. Spec sections 4.1 and 6 say the price edit updates both
start_price and current_price to the new value. -/
def update_auction_price (db : DB) (aid : Nat) (new_price : Int) : Bool × DB :=
  let l := update_matching db.auctions aid
    (fun a => { a with start_price := new_price, current_price := new_price })
  (true, { db with auctions := l })

/-- Embeds SQLiteAuctionRepository.add_participant (repositories.py
lines 340-351): INSERT OR IGNORE under the (auction_id, user_id)
primary key, returning true. -/
def add_participant (db : DB) (aid : Nat) (user_id : Nat) : Bool × DB :=
  let l := update_matching db.auctions aid
    (fun a => if user_id ∈ a.participants then a
              else { a with participants := a.participants ++ [user_id] })
  (true, { db with auctions := l })

/-- Embeds SQLiteAuctionRepository.add_bid (repositories.py lines
353-369): insert the bid row and set the current price to its amount,
in one transaction, returning true. -/
def add_bid (db : DB) (bid : Bid) : Bool × DB :=
  let l := update_matching db.auctions bid.auction_id
    (fun a => { a with bids := a.bids ++ [bid], current_price := bid.amount })
  (true, { db with auctions := l })

/-- Embeds SQLiteAuctionRepository.create_auction: INSERT the new row. -/
def repo_create_auction (db : DB) (a : Auction) : DB :=
  { db with auctions := db.auctions ++ [a] }

/-- Embeds AuctionService.create_auction (services.py lines 45-80):
read the active auctions; if any exist the new auction is scheduled
with no end time, otherwise it is active with end_time = now +
duration; then persist it and return its id. The end time of the
active branch is computed from the raw duration before the
__post_init__ coercion, as in the source. -/
def create_auction (db : DB) (now : Nat) (new_id : Nat) (creator_id : Nat)
    (start_price : Int) (duration_hours : Nat) : Nat × DB :=
  let st_et : AuctionStatus × Option Nat :=
    match get_active_auctions db with
    | _ :: _ => (AuctionStatus.scheduled, none)
    | [] => (AuctionStatus.active, some (now + duration_hours * minutesPerHour))
  let auction := auction_post_init
    { auction_id := new_id, start_price := start_price, current_price := start_price,
      status := st_et.1, creator_id := creator_id, duration_hours := duration_hours,
      end_time := st_et.2, created_at := now, participants := [], bids := [] }
  (new_id, repo_create_auction db auction)

/-- Embeds AuctionService.activate_scheduled_auction (services.py lines
82-97): fails only when the auction is absent or not scheduled; on
success the status becomes active and end_time = now + duration. -/
def activate_scheduled_auction (db : DB) (now : Nat) (auction_id : Nat) : Bool × DB :=
  match get_auction db auction_id with
  | none => (false, db)
  | some auction =>
    if auction.status ≠ AuctionStatus.scheduled then (false, db)
    else update_auction_status_and_end_time db auction_id AuctionStatus.active
      (some (now + auction.duration_hours * minutesPerHour))

/-- Embeds AuctionService.join_auction (services.py lines 109-119). -/
def join_auction (db : DB) (now : Nat) (auction_id : Nat) (user_id : Nat) : Bool × DB :=
  match get_auction db auction_id with
  | none => (false, db)
  | some auction =>
    if !(is_active auction now) then (false, db)
    else
      match get_user db user_id with
      | none => (false, db)
      | some user =>
        if user.is_blocked then (false, db)
        else add_participant db auction_id user_id

/-- The validate-and-write tail of AuctionService.place_bid,
parameterised by the auction snapshot obtained by the get_auction read
that precedes it; the user lookup is a fresh read, as in the source
(services.py lines 121-162). -/
def place_bid_commit (db : DB) (now : Nat) (new_bid_id : Nat) (auction_id : Nat)
    (user_id : Nat) (amount : Int) (snapshot : Option Auction) : Bool × DB :=
  match snapshot with
  | none => (false, db)
  | some auction =>
    if !(is_active auction now) then (false, db)
    else
      match get_user db user_id with
      | none => (false, db)
      | some user =>
        if user.is_blocked then (false, db)
        else if user_id ∉ auction.participants then (false, db)
        else if amount ≤ auction.current_price then (false, db)
        else add_bid db { bid_id := new_bid_id, auction_id := auction_id,
                          user_id := user_id, username := user.username,
                          amount := amount, timestamp := now }

/-- Embeds AuctionService.place_bid (services.py lines 121-162): a
get_auction read followed by validation and the add_bid write. -/
def place_bid (db : DB) (now : Nat) (new_bid_id : Nat) (auction_id : Nat)
    (user_id : Nat) (amount : Int) : Bool × DB :=
  place_bid_commit db now new_bid_id auction_id user_id amount (get_auction db auction_id)

/-- Embeds AuctionService.end_auction (services.py lines 164-181). -/
def end_auction (db : DB) (auction_id : Nat) (admin_id : Nat) : Bool × DB :=
  match get_auction db auction_id with
  | none => (false, db)
  | some auction =>
    if auction.status ≠ AuctionStatus.active then (false, db)
    else
      match get_user db admin_id with
      | none => (false, db)
      | some admin =>
        if !admin.is_admin then (false, db)
        else update_auction_status db auction_id AuctionStatus.completed

/-- Embeds AuctionService.edit_auction_price (services.py lines
191-197): fails when the auction is absent or has any bid. -/
def edit_auction_price (db : DB) (auction_id : Nat) (new_price : Int) : Bool × DB :=
  match get_auction db auction_id with
  | none => (false, db)
  | some auction =>
    if auction.bids ≠ [] then (false, db)
    else update_auction_price db auction_id new_price

/-- One iteration of the loop body of
AuctionScheduler._check_expired_auctions (services.py lines 501-513):
if the snapshot row has an end time that has passed, set the status to
completed. -/
def check_expired_step (now : Nat) (db : DB) (auction : Auction) : DB :=
  match auction.end_time with
  | some t => if t ≤ now then (update_auction_status db auction.auction_id AuctionStatus.completed).2
              else db
  | none => db

/-- Embeds AuctionScheduler._check_expired_auctions (services.py lines
501-513): fetch the active auctions once, then complete each expired
one. -/
def check_expired_auctions (db : DB) (now : Nat) : DB :=
  (get_active_auctions db).foldl (check_expired_step now) db

/-- Embeds AuctionScheduler._check_scheduled_auctions (services.py
lines 515-527): when no auction is active and the earliest scheduled
auction was created at least one minute ago, activate it. -/
def check_scheduled_auctions (db : DB) (now : Nat) : DB :=
  match get_active_auctions db with
  | _ :: _ => db
  | [] =>
    match get_scheduled_auctions db with
    | [] => db
    | next :: _ =>
      if 1 ≤ now - next.created_at then
        (activate_scheduled_auction db now next.auction_id).2
      else db

/-- One tick of AuctionScheduler.start (services.py lines 485-495):
the expiry check followed by the activation check. -/
def scheduler_tick (db : DB) (now : Nat) : DB :=
  check_scheduled_auctions (check_expired_auctions db now) now

/-- The engine entry points that can change an auction status in
normal operation: an admin create and a scheduler tick (activation is
only ever invoked from inside the tick, services.py line 526). -/
inductive EngineOp where
  | createOp (now : Nat) (creator_id : Nat) (start_price : Int) (duration_hours : Nat)
  | tickOp (now : Nat)

/-- A fresh auction id, standing for uuid4 collision freedom. -/
def fresh_auction_id (db : DB) : Nat :=
  (db.auctions.map (fun a => a.auction_id)).foldr max 0 + 1

def run_op (db : DB) : EngineOp → DB
  | EngineOp.createOp now creator price dur =>
      (create_auction db now (fresh_auction_id db) creator price dur).2
  | EngineOp.tickOp now => scheduler_tick db now

def run_ops (db : DB) (ops : List EngineOp) : DB := ops.foldl run_op db

/-- The auction primary keys, in table order. -/
def auction_ids (db : DB) : List Nat := db.auctions.map (fun a => a.auction_id)

/-- Well-formedness guaranteed by the sqlite schema: auction_id is a
primary key, so ids are pairwise distinct. -/
def WF (db : DB) : Prop := (auction_ids db).Nodup

/-- The number of auctions whose status is active. -/
def active_count (db : DB) : Nat :=
  db.auctions.countP (fun a => decide (a.status = AuctionStatus.active))

def at_most_one_active (db : DB) : Prop := active_count db ≤ 1

/-- One interleaving of two concurrent place_bid calls on the same
auction: both get_auction reads happen before either add_bid write
commits, so each call validates against its own earlier snapshot
exactly as place_bid does. -/
def place_bid_race (db : DB) (now : Nat) (auction_id : Nat)
    (uid1 : Nat) (amt1 : Int) (uid2 : Nat) (amt2 : Int) : Bool × Bool × DB :=
  let s1 := get_auction db auction_id
  let s2 := get_auction db auction_id
  let r1 := place_bid_commit db now 901 auction_id uid1 amt1 s1
  let r2 := place_bid_commit r1.2 now 902 auction_id uid2 amt2 s2
  (r1.1, r2.1, r2.2)

/-! Generic lemmas about primary-key lookup and keyed updates. -/

lemma find_update_matching_self (l : List Auction) (aid : Nat) (f : Auction → Auction)
    (hf : ∀ a, (f a).auction_id = a.auction_id) :
    (update_matching l aid f).find? (fun a => a.auction_id == aid)
      = (l.find? (fun a => a.auction_id == aid)).map f := by
  induction l with
  | nil => rfl
  | cons a l ih =>
    simp only [update_matching, List.map_cons]
    by_cases h : a.auction_id = aid
    · rw [if_pos h, List.find?_cons_of_pos _ (by simp [hf, h]),
        List.find?_cons_of_pos _ (by simp [h])]
      rfl
    · rw [if_neg h, List.find?_cons_of_neg _ (by simp [h]),
        List.find?_cons_of_neg _ (by simp [h])]
      exact ih

lemma find_update_matching_other (l : List Auction) (aid oid : Nat) (f : Auction → Auction)
    (hf : ∀ a, (f a).auction_id = a.auction_id) (hne : oid ≠ aid) :
    (update_matching l aid f).find? (fun a => a.auction_id == oid)
      = l.find? (fun a => a.auction_id == oid) := by
  induction l with
  | nil => rfl
  | cons a l ih =>
    simp only [update_matching, List.map_cons]
    by_cases h : a.auction_id = aid
    · have h1 : List.find? (fun b => b.auction_id == oid)
          (f a :: List.map (fun b => if b.auction_id = aid then f b else b) l)
          = List.find? (fun b => b.auction_id == oid)
              (List.map (fun b => if b.auction_id = aid then f b else b) l) :=
        List.find?_cons_of_neg _ (by simp [hf, h]; exact fun e => hne e.symm)
      have h2 : List.find? (fun b => b.auction_id == oid) (a :: l)
          = List.find? (fun b => b.auction_id == oid) l :=
        List.find?_cons_of_neg _ (by simp [h]; exact fun e => hne e.symm)
      rw [if_pos h, h1, h2]
      exact ih
    · rw [if_neg h]
      by_cases hp : (a.auction_id == oid) = true
      · have h1 : List.find? (fun b => b.auction_id == oid)
            (a :: List.map (fun b => if b.auction_id = aid then f b else b) l) = some a :=
          List.find?_cons_of_pos _ hp
        have h2 : List.find? (fun b => b.auction_id == oid) (a :: l) = some a :=
          List.find?_cons_of_pos _ hp
        rw [h1, h2]
      · have h1 : List.find? (fun b => b.auction_id == oid)
            (a :: List.map (fun b => if b.auction_id = aid then f b else b) l)
            = List.find? (fun b => b.auction_id == oid)
                (List.map (fun b => if b.auction_id = aid then f b else b) l) :=
          List.find?_cons_of_neg _ hp
        have h2 : List.find? (fun b => b.auction_id == oid) (a :: l)
            = List.find? (fun b => b.auction_id == oid) l :=
          List.find?_cons_of_neg _ hp
        rw [h1, h2]
        exact ih

lemma ids_update_matching (l : List Auction) (aid : Nat) (f : Auction → Auction)
    (hf : ∀ a, (f a).auction_id = a.auction_id) :
    (update_matching l aid f).map (fun a => a.auction_id) = l.map (fun a => a.auction_id) := by
  induction l with
  | nil => rfl
  | cons a l ih =>
    simp only [update_matching, List.map_cons]
    by_cases h : a.auction_id = aid
    · rw [if_pos h, hf a]
      exact congrArg (List.cons a.auction_id) ih
    · rw [if_neg h]
      exact congrArg (List.cons a.auction_id) ih

lemma countP_map_le (l : List Auction) (g : Auction → Auction) (p : Auction → Bool)
    (hp : ∀ a, p (g a) = true → p a = true) :
    (l.map g).countP p ≤ l.countP p := by
  induction l with
  | nil => exact Nat.le_refl _
  | cons a l ih =>
    simp only [List.map_cons, List.countP_cons]
    by_cases h : p (g a) = true
    · rw [if_pos h, if_pos (hp a h)]
      omega
    · rw [if_neg h]
      by_cases h2 : p a = true
      · rw [if_pos h2]; omega
      · rw [if_neg h2]; omega

lemma countP_update_matching_le (l : List Auction) (aid : Nat) (f : Auction → Auction)
    (p : Auction → Bool) (hp : ∀ a, p (f a) = true → p a = true) :
    (update_matching l aid f).countP p ≤ l.countP p := by
  refine countP_map_le l _ p ?_
  intro a h
  by_cases hid : a.auction_id = aid
  · rw [if_pos hid] at h
    exact hp a h
  · rwa [if_neg hid] at h

lemma countP_update_matching_le_add (l : List Auction) (aid : Nat) (f : Auction → Auction)
    (p : Auction → Bool) :
    (update_matching l aid f).countP p
      ≤ l.countP p + l.countP (fun a => a.auction_id == aid) := by
  induction l with
  | nil => simp [update_matching]
  | cons a l ih =>
    simp only [update_matching, List.map_cons, List.countP_cons] at *
    by_cases h : a.auction_id = aid
    · rw [if_pos h]
      have hq : (a.auction_id == aid) = true := by simp [h]
      rw [if_pos hq]
      by_cases h1 : p (f a) = true
      · rw [if_pos h1]
        by_cases h2 : p a = true
        · rw [if_pos h2]; omega
        · rw [if_neg h2]; omega
      · rw [if_neg h1]
        by_cases h2 : p a = true
        · rw [if_pos h2]; omega
        · rw [if_neg h2]; omega
    · rw [if_neg h]
      have hq : ¬((a.auction_id == aid) = true) := by simp [h]
      rw [if_neg hq]
      by_cases h2 : p a = true
      · rw [if_pos h2]; omega
      · rw [if_neg h2]; omega

lemma countP_id_le_one (l : List Auction)
    (h : (l.map (fun a => a.auction_id)).Nodup) (aid : Nat) :
    l.countP (fun a => a.auction_id == aid) ≤ 1 := by
  induction l with
  | nil => simp
  | cons a l ih =>
    simp only [List.map_cons, List.nodup_cons] at h
    simp only [List.countP_cons]
    by_cases ha : a.auction_id = aid
    · have hz : l.countP (fun b => b.auction_id == aid) = 0 := by
        rw [List.countP_eq_zero]
        intro b hb hbe
        simp only [beq_iff_eq] at hbe
        exact h.1 (by rw [ha, ← hbe]; exact List.mem_map_of_mem _ hb)
      simp [ha, hz]
    · have hn : ¬((a.auction_id == aid) = true) := by simp [ha]
      rw [if_neg hn]
      simpa using ih h.2

lemma find_id_of_mem (l : List Auction)
    (h : (l.map (fun a => a.auction_id)).Nodup) (a : Auction) (ha : a ∈ l) :
    l.find? (fun b => b.auction_id == a.auction_id) = some a := by
  induction l with
  | nil => cases ha
  | cons b l ih =>
    simp only [List.map_cons, List.nodup_cons] at h
    rcases List.mem_cons.mp ha with rfl | ha2
    · exact List.find?_cons_of_pos _ (by simp)
    · have hne : b.auction_id ≠ a.auction_id := by
        intro e
        exact h.1 (by rw [e]; exact List.mem_map_of_mem _ ha2)
      rw [List.find?_cons_of_neg _ (by simp [hne])]
      exact ih h.2 ha2

lemma find_append_singleton (l : List Auction) (p : Auction → Bool) (x : Auction)
    (h : ∀ a ∈ l, p a = false) (hx : p x = true) :
    (l ++ [x]).find? p = some x := by
  induction l with
  | nil => exact List.find?_cons_of_pos _ hx
  | cons a l ih =>
    have hna : ¬(p a = true) := by simp [h a (List.mem_cons_self a l)]
    rw [List.cons_append, List.find?_cons_of_neg _ hna]
    exact ih (fun b hb => h b (List.mem_cons_of_mem a hb))

/-! Lemmas about the ORDER BY created_at queries. -/

lemma mem_sort_iff (l : List Auction) (a : Auction) :
    a ∈ List.insertionSort createdLE l ↔ a ∈ l :=
  (List.perm_insertionSort createdLE l).mem_iff

lemma sort_eq_nil_iff (l : List Auction) :
    List.insertionSort createdLE l = [] ↔ l = [] := by
  constructor
  · intro h
    have hp := List.perm_insertionSort createdLE l
    rw [h] at hp
    exact (List.perm_nil.mp hp.symm)
  · intro h
    rw [h]
    rfl

lemma nodup_ids_sort_filter (l : List Auction)
    (h : (l.map (fun a => a.auction_id)).Nodup) (p : Auction → Bool) :
    ((List.insertionSort createdLE (l.filter p)).map (fun a => a.auction_id)).Nodup := by
  have hperm := (List.perm_insertionSort createdLE (l.filter p)).map (fun a => a.auction_id)
  refine hperm.nodup_iff.mpr ?_
  exact h.sublist ((List.filter_sublist l).map (fun a => a.auction_id))

lemma mem_get_active (db : DB) (a : Auction) :
    a ∈ get_active_auctions db ↔ a ∈ db.auctions ∧ a.status = AuctionStatus.active := by
  unfold get_active_auctions
  rw [mem_sort_iff, List.mem_filter]
  simp

lemma mem_get_scheduled (db : DB) (a : Auction) :
    a ∈ get_scheduled_auctions db ↔ a ∈ db.auctions ∧ a.status = AuctionStatus.scheduled := by
  unfold get_scheduled_auctions
  rw [mem_sort_iff, List.mem_filter]
  simp

lemma get_active_eq_nil_iff (db : DB) :
    get_active_auctions db = [] ↔ active_count db = 0 := by
  unfold get_active_auctions active_count
  rw [sort_eq_nil_iff, List.countP_eq_length_filter, List.length_eq_zero]

lemma get_auction_of_mem (db : DB) (h : WF db) (a : Auction) (ha : a ∈ db.auctions) :
    get_auction db a.auction_id = some a :=
  find_id_of_mem db.auctions h a ha

/-! Lemmas about the expiry check fold. -/

lemma ids_check_expired_fold (now : Nat) :
    ∀ (s : List Auction) (db : DB),
      auction_ids (s.foldl (check_expired_step now) db) = auction_ids db := by
  intro s
  induction s with
  | nil => intro db; rfl
  | cons a s ih =>
    intro db
    rw [List.foldl_cons, ih]
    cases he : a.end_time with
    | none => simp [check_expired_step, he]
    | some t =>
      by_cases ht : t ≤ now
      · simp only [check_expired_step, he, if_pos ht]
        unfold update_auction_status auction_ids
        exact ids_update_matching _ _ _ (fun b => rfl)
      · simp [check_expired_step, he, if_neg ht]

lemma get_auction_check_expired_fold_other (now : Nat) (oid : Nat) :
    ∀ (s : List Auction) (db : DB), (∀ a ∈ s, a.auction_id ≠ oid) →
      get_auction (s.foldl (check_expired_step now) db) oid = get_auction db oid := by
  intro s
  induction s with
  | nil => intro db _; rfl
  | cons a s ih =>
    intro db h
    rw [List.foldl_cons, ih _ (fun b hb => h b (List.mem_cons_of_mem a hb))]
    cases he : a.end_time with
    | none => simp [check_expired_step, he]
    | some t =>
      by_cases ht : t ≤ now
      · simp only [check_expired_step, he, if_pos ht]
        unfold update_auction_status get_auction
        exact find_update_matching_other _ _ _ _ (fun b => rfl)
          (fun e => h a (List.mem_cons_self a s) e.symm)
      · simp [check_expired_step, he, if_neg ht]

lemma active_count_check_expired_fold (now : Nat) :
    ∀ (s : List Auction) (db : DB),
      active_count (s.foldl (check_expired_step now) db) ≤ active_count db := by
  intro s
  induction s with
  | nil => intro db; exact Nat.le_refl _
  | cons a s ih =>
    intro db
    rw [List.foldl_cons]
    refine Nat.le_trans (ih _) ?_
    cases he : a.end_time with
    | none => simp [check_expired_step, he]
    | some t =>
      by_cases ht : t ≤ now
      · simp only [check_expired_step, he, if_pos ht]
        unfold update_auction_status active_count
        refine countP_update_matching_le _ _ _ _ ?_
        intro b hb
        simp at hb
      · simp [check_expired_step, he, if_neg ht]

lemma get_auction_check_expired_fold_hit (now : Nat) (a : Auction) (t : Nat)
    (ht : a.end_time = some t) (htn : t ≤ now) :
    ∀ (s : List Auction) (db : DB) (x : Auction),
      (s.map (fun c => c.auction_id)).Nodup → a ∈ s →
      get_auction db a.auction_id = some x →
      get_auction (s.foldl (check_expired_step now) db) a.auction_id
        = some { x with status := AuctionStatus.completed } := by
  intro s
  induction s with
  | nil => intro db x _ ha; cases ha
  | cons b s ih =>
    intro db x hnd ha hx
    simp only [List.map_cons, List.nodup_cons] at hnd
    rw [List.foldl_cons]
    rcases List.mem_cons.mp ha with rfl | ha2
    · have hstep : get_auction (check_expired_step now db a) a.auction_id
          = some { x with status := AuctionStatus.completed } := by
        simp only [check_expired_step, ht, if_pos htn]
        unfold update_auction_status get_auction
        have h2 := find_update_matching_self db.auctions a.auction_id
          (fun c => { c with status := AuctionStatus.completed }) (fun c => rfl)
        unfold get_auction at hx
        rw [h2, hx]
        rfl
      rw [get_auction_check_expired_fold_other now a.auction_id s _
        (fun c hc e => hnd.1 (e ▸ List.mem_map_of_mem _ hc))]
      exact hstep
    · have hne : b.auction_id ≠ a.auction_id := by
        intro e
        exact hnd.1 (by rw [e]; exact List.mem_map_of_mem _ ha2)
      have hpres : get_auction (check_expired_step now db b) a.auction_id = some x := by
        cases he : b.end_time with
        | none => simpa [check_expired_step, he] using hx
        | some u =>
          by_cases hu : u ≤ now
          · simp only [check_expired_step, he, if_pos hu]
            unfold update_auction_status get_auction
            unfold get_auction at hx
            have h3 := find_update_matching_other db.auctions b.auction_id a.auction_id
              (fun c => { c with status := AuctionStatus.completed }) (fun c => rfl)
              (fun e => hne e.symm)
            exact h3.trans hx
          · simpa [check_expired_step, he, if_neg hu] using hx
      exact ih _ _ hnd.2 ha2 hpres

/-! Lemmas about activation and the scheduler tick. -/

lemma activate_ids (db : DB) (now aid : Nat) :
    auction_ids (activate_scheduled_auction db now aid).2 = auction_ids db := by
  cases h : get_auction db aid with
  | none => simp [activate_scheduled_auction, h]
  | some a =>
    by_cases hs : a.status ≠ AuctionStatus.scheduled
    · simp [activate_scheduled_auction, h, hs]
    · simp only [activate_scheduled_auction, h, if_neg hs]
      unfold update_auction_status_and_end_time auction_ids
      exact ids_update_matching _ _ _ (fun b => rfl)

lemma activate_other (db : DB) (now aid oid : Nat) (hne : oid ≠ aid) :
    get_auction (activate_scheduled_auction db now aid).2 oid = get_auction db oid := by
  cases h : get_auction db aid with
  | none => simp [activate_scheduled_auction, h]
  | some a =>
    by_cases hs : a.status ≠ AuctionStatus.scheduled
    · simp [activate_scheduled_auction, h, hs]
    · simp only [activate_scheduled_auction, h, if_neg hs]
      unfold update_auction_status_and_end_time get_auction
      exact find_update_matching_other _ _ _ _ (fun b => rfl) hne

lemma activate_count (db : DB) (now aid : Nat) :
    active_count (activate_scheduled_auction db now aid).2
      ≤ active_count db + db.auctions.countP (fun b => b.auction_id == aid) := by
  cases h : get_auction db aid with
  | none =>
    simp only [activate_scheduled_auction, h]
    exact Nat.le_add_right _ _
  | some a =>
    by_cases hs : a.status ≠ AuctionStatus.scheduled
    · simp only [activate_scheduled_auction, h, if_pos hs]
      exact Nat.le_add_right _ _
    · simp only [activate_scheduled_auction, h, if_neg hs]
      unfold update_auction_status_and_end_time active_count
      exact countP_update_matching_le_add _ _ _ _

lemma activate_false_of_not_scheduled (db : DB) (now aid : Nat)
    (h : ∀ a, get_auction db aid = some a → a.status ≠ AuctionStatus.scheduled) :
    activate_scheduled_auction db now aid = (false, db) := by
  cases hg : get_auction db aid with
  | none => simp [activate_scheduled_auction, hg]
  | some a => simp [activate_scheduled_auction, hg, h a hg]

lemma ids_check_expired (db : DB) (now : Nat) :
    auction_ids (check_expired_auctions db now) = auction_ids db :=
  ids_check_expired_fold now (get_active_auctions db) db

lemma ids_check_scheduled (db : DB) (now : Nat) :
    auction_ids (check_scheduled_auctions db now) = auction_ids db := by
  cases h1 : get_active_auctions db with
  | cons a l => simp [check_scheduled_auctions, h1]
  | nil =>
    cases h2 : get_scheduled_auctions db with
    | nil => simp [check_scheduled_auctions, h1, h2]
    | cons next rest =>
      by_cases h3 : 1 ≤ now - next.created_at
      · simp only [check_scheduled_auctions, h1, h2, if_pos h3]
        exact activate_ids db now next.auction_id
      · simp [check_scheduled_auctions, h1, h2, if_neg h3]

lemma ids_tick (db : DB) (now : Nat) :
    auction_ids (scheduler_tick db now) = auction_ids db := by
  unfold scheduler_tick
  rw [ids_check_scheduled, ids_check_expired]

lemma WF_check_expired (db : DB) (now : Nat) (h : WF db) :
    WF (check_expired_auctions db now) := by
  unfold WF
  rw [ids_check_expired]
  exact h

lemma WF_tick (db : DB) (now : Nat) (h : WF db) : WF (scheduler_tick db now) := by
  unfold WF
  rw [ids_tick]
  exact h

lemma active_count_check_expired (db : DB) (now : Nat) :
    active_count (check_expired_auctions db now) ≤ active_count db :=
  active_count_check_expired_fold now (get_active_auctions db) db

lemma active_count_check_scheduled (db : DB) (now : Nat) (hWF : WF db)
    (h1 : active_count db ≤ 1) :
    active_count (check_scheduled_auctions db now) ≤ 1 := by
  cases hA : get_active_auctions db with
  | cons a l => simpa [check_scheduled_auctions, hA] using h1
  | nil =>
    have hz : active_count db = 0 := (get_active_eq_nil_iff db).mp hA
    cases hS : get_scheduled_auctions db with
    | nil => simpa [check_scheduled_auctions, hA, hS] using h1
    | cons next rest =>
      by_cases h3 : 1 ≤ now - next.created_at
      · simp only [check_scheduled_auctions, hA, hS, if_pos h3]
        refine Nat.le_trans (activate_count db now next.auction_id) ?_
        have := countP_id_le_one db.auctions hWF next.auction_id
        omega
      · simpa [check_scheduled_auctions, hA, hS, if_neg h3] using h1

lemma active_count_tick (db : DB) (now : Nat) (hWF : WF db) (h1 : active_count db ≤ 1) :
    active_count (scheduler_tick db now) ≤ 1 := by
  unfold scheduler_tick
  exact active_count_check_scheduled _ now (WF_check_expired db now hWF)
    (Nat.le_trans (active_count_check_expired db now) h1)

/-! Lemmas about auction creation. -/

lemma mem_le_foldr_max (l : List Nat) (x : Nat) (hx : x ∈ l) : x ≤ l.foldr max 0 := by
  induction l with
  | nil => cases hx
  | cons a l ih =>
    rcases List.mem_cons.mp hx with rfl | h2
    · exact le_max_left _ _
    · exact Nat.le_trans (ih h2) (le_max_right _ _)

lemma fresh_not_mem (db : DB) : fresh_auction_id db ∉ auction_ids db := by
  intro h
  have h1 := mem_le_foldr_max _ _ h
  have h2 : fresh_auction_id db = (auction_ids db).foldr max 0 + 1 := rfl
  omega

lemma ids_create (db : DB) (now new_id creator : Nat) (price : Int) (dur : Nat) :
    auction_ids (create_auction db now new_id creator price dur).2
      = auction_ids db ++ [new_id] := by
  cases hA : get_active_auctions db with
  | cons a l =>
    simp [create_auction, hA, repo_create_auction, auction_ids, auction_post_init]
  | nil =>
    simp [create_auction, hA, repo_create_auction, auction_ids, auction_post_init]

lemma WF_create_fresh (db : DB) (now creator : Nat) (price : Int) (dur : Nat) (h : WF db) :
    WF (create_auction db now (fresh_auction_id db) creator price dur).2 := by
  unfold WF
  rw [ids_create]
  rw [List.nodup_append]
  refine ⟨h, List.nodup_singleton _, ?_⟩
  intro x hx hx2
  rcases List.mem_singleton.mp hx2 with rfl
  exact fresh_not_mem db hx

lemma active_count_create (db : DB) (now new_id creator : Nat) (price : Int) (dur : Nat)
    (h1 : active_count db ≤ 1) :
    active_count (create_auction db now new_id creator price dur).2 ≤ 1 := by
  cases hA : get_active_auctions db with
  | cons a l =>
    have he : active_count (create_auction db now new_id creator price dur).2
        = active_count db := by
      simp [create_auction, hA, repo_create_auction, active_count, auction_post_init,
        List.countP_append]
    omega
  | nil =>
    have hz : active_count db = 0 := (get_active_eq_nil_iff db).mp hA
    have he : active_count (create_auction db now new_id creator price dur).2
        = active_count db + 1 := by
      simp [create_auction, hA, repo_create_auction, active_count, auction_post_init,
        List.countP_append]
    omega

lemma run_op_preserves (db : DB) (op : EngineOp)
    (h : WF db ∧ active_count db ≤ 1) :
    WF (run_op db op) ∧ active_count (run_op db op) ≤ 1 := by
  cases op with
  | createOp now creator price dur =>
    exact ⟨WF_create_fresh db now creator price dur h.1,
      active_count_create db now _ creator price dur h.2⟩
  | tickOp now =>
    exact ⟨WF_tick db now h.1, active_count_tick db now h.1 h.2⟩

lemma run_ops_preserves (ops : List EngineOp) :
    ∀ (db : DB), WF db ∧ active_count db ≤ 1 →
      WF (run_ops db ops) ∧ active_count (run_ops db ops) ≤ 1 := by
  induction ops with
  | nil => intro db h; exact h
  | cons op ops ih =>
    intro db h
    exact ih _ (run_op_preserves db op h)

/-! Point lemmas about the single-row update operations. -/

lemma get_auction_add_bid (db : DB) (b : Bid) (aid : Nat) (h : b.auction_id = aid) :
    get_auction (add_bid db b).2 aid
      = (get_auction db aid).map
          (fun a => { a with bids := a.bids ++ [b], current_price := b.amount }) := by
  subst h
  unfold add_bid get_auction
  exact find_update_matching_self _ _ _ (fun c => rfl)

lemma get_auction_update_status_self (db : DB) (aid : Nat) (st : AuctionStatus) :
    get_auction (update_auction_status db aid st).2 aid
      = (get_auction db aid).map (fun a => { a with status := st }) := by
  unfold update_auction_status get_auction
  exact find_update_matching_self _ _ _ (fun c => rfl)

lemma get_auction_update_status_other (db : DB) (aid oid : Nat) (st : AuctionStatus)
    (h : oid ≠ aid) :
    get_auction (update_auction_status db aid st).2 oid = get_auction db oid := by
  unfold update_auction_status get_auction
  exact find_update_matching_other _ _ _ _ (fun c => rfl) h

lemma get_auction_update_price_self (db : DB) (aid : Nat) (p : Int) :
    get_auction (update_auction_price db aid p).2 aid
      = (get_auction db aid).map
          (fun a => { a with start_price := p, current_price := p }) := by
  unfold update_auction_price get_auction
  exact find_update_matching_self _ _ _ (fun c => rfl)

lemma get_auction_add_participant (db : DB) (aid uid : Nat) :
    get_auction (add_participant db aid uid).2 aid
      = (get_auction db aid).map
          (fun c => if uid ∈ c.participants then c
                    else { c with participants := c.participants ++ [uid] }) := by
  unfold add_participant get_auction
  refine find_update_matching_self _ _ _ ?_
  intro c
  by_cases hm : uid ∈ c.participants <;> simp [hm]

lemma add_participant_snd_eq_self (db : DB) (aid uid : Nat)
    (h : update_matching db.auctions aid
        (fun c => if uid ∈ c.participants then c
          else { c with participants := c.participants ++ [uid] }) = db.auctions) :
    (add_participant db aid uid).2 = db := by
  simp only [add_participant]
  rw [h]

lemma update_matching_idem (l : List Auction) (aid : Nat) (f : Auction → Auction)
    (hf : ∀ a, (f a).auction_id = a.auction_id) (hidem : ∀ a, f (f a) = f a) :
    update_matching (update_matching l aid f) aid f = update_matching l aid f := by
  induction l with
  | nil => rfl
  | cons a l ih =>
    simp only [update_matching, List.map_cons]
    by_cases h : a.auction_id = aid
    · rw [if_pos h, if_pos (by rw [hf a]; exact h), hidem a]
      exact congrArg _ ih
    · rw [if_neg h, if_neg h]
      exact congrArg _ ih

/-! Concrete fixtures used by witnesses and counterexamples. -/

def empty_db : DB := { users := [], auctions := [] }

def user1 : User := { user_id := 1, username := "alice", is_admin := false, is_blocked := false }

def user2 : User := { user_id := 2, username := "bob", is_admin := false, is_blocked := false }

def admin9 : User := { user_id := 9, username := "carol", is_admin := true, is_blocked := false }

/-- An active auction at price 100 with users 1 and 2 joined, ending at
minute 100. -/
def auction1 : Auction :=
  { auction_id := 1, start_price := 100, current_price := 100,
    status := AuctionStatus.active, creator_id := 9, duration_hours := 1,
    end_time := some 100, created_at := 0, participants := [1, 2], bids := [] }

/-- A scheduled auction queued behind auction1. -/
def auction2sched : Auction :=
  { auction_id := 2, start_price := 50, current_price := 50,
    status := AuctionStatus.scheduled, creator_id := 9, duration_hours := 2,
    end_time := none, created_at := 1, participants := [], bids := [] }

def sample_db : DB := { users := [user1, user2, admin9], auctions := [auction1] }

def two_lane_db : DB := { users := [admin9], auctions := [auction1, auction2sched] }

/-- Helper for building a Bid row positionally. -/
def mk_bid (nbid aid uid : Nat) (uname : String) (amount : Int) (now : Nat) : Bid :=
  { bid_id := nbid, auction_id := aid, user_id := uid, username := uname,
    amount := amount, timestamp := now }

/-- C1: place_bid returns true exactly when, in the freshest persisted
state it was handed, the auction exists and is active, the user exists
and is not blocked, the user is a participant of the auction, and the
amount is strictly greater than the current price; on a true return the
new bid row is appended to the bid sequence and current_price becomes
the amount. -/
theorem C1_place_bid_correct (db : DB) (now nbid aid uid : Nat) (amount : Int) :
    ((place_bid db now nbid aid uid amount).1 = true ↔
      ∃ a, get_auction db aid = some a ∧ is_active a now = true ∧
        ∃ u, get_user db uid = some u ∧ u.is_blocked = false ∧
          uid ∈ a.participants ∧ a.current_price < amount)
  ∧ (∀ a u, get_auction db aid = some a → get_user db uid = some u →
      (place_bid db now nbid aid uid amount).1 = true →
      get_auction (place_bid db now nbid aid uid amount).2 aid =
        some { a with
          bids := a.bids ++ [mk_bid nbid aid uid u.username amount now],
          current_price := amount }) := by
  constructor
  · cases hg : get_auction db aid with
    | none => simp [place_bid, place_bid_commit, hg]
    | some a =>
      cases hact : is_active a now with
      | false => simp [place_bid, place_bid_commit, hg, hact]
      | true =>
        cases hu : get_user db uid with
        | none => simp [place_bid, place_bid_commit, hg, hact, hu]
        | some u =>
          cases hb : u.is_blocked with
          | true => simp [place_bid, place_bid_commit, hg, hact, hu, hb]
          | false =>
            by_cases hp : uid ∈ a.participants
            · by_cases hamt : amount ≤ a.current_price
              · simp [place_bid, place_bid_commit, hg, hact, hu, hb, hp, hamt, not_lt, add_bid]
              · simp [place_bid, place_bid_commit, hg, hact, hu, hb, hp, hamt, add_bid,
                  lt_of_not_le hamt]
            · simp [place_bid, place_bid_commit, hg, hact, hu, hb, hp]
  · intro a u ha hu hs
    cases hact : is_active a now with
    | false => simp [place_bid, place_bid_commit, ha, hact] at hs
    | true =>
      cases hb : u.is_blocked with
      | true => simp [place_bid, place_bid_commit, ha, hu, hact, hb] at hs
      | false =>
        by_cases hp : uid ∈ a.participants
        · by_cases hamt : amount ≤ a.current_price
          · simp [place_bid, place_bid_commit, ha, hu, hact, hb, hp, hamt] at hs
          · have hred : place_bid db now nbid aid uid amount
                = add_bid db (mk_bid nbid aid uid u.username amount now) := by
              simp [place_bid, place_bid_commit, mk_bid, ha, hu, hact, hb, hp, hamt]
            rw [hred, get_auction_add_bid db (mk_bid nbid aid uid u.username amount now) aid rfl, ha]
            rfl
        · simp [place_bid, place_bid_commit, ha, hu, hact, hb, hp] at hs

/-- Witness for C1 at a concrete input: user 1 bids 150 on the active
auction priced 100 and the bid is recorded. -/
theorem C1_witness :
    get_auction sample_db 1 = some auction1 ∧ get_user sample_db 1 = some user1 ∧
    (place_bid sample_db 5 9 1 1 150).1 = true ∧
    get_auction (place_bid sample_db 5 9 1 1 150).2 1 =
      some { auction1 with
        bids := auction1.bids ++ [mk_bid 9 1 1 user1.username 150 5],
        current_price := 150 } := by
  refine ⟨rfl, rfl, rfl, ?_⟩
  exact (C1_place_bid_correct sample_db 5 9 1 1 150).2 auction1 user1 rfl rfl rfl

/-- C10: whenever place_bid returns false the persisted state is
returned unchanged, so no bid row, price, or participant set changes. -/
theorem C10_place_bid_failure_atomic (db : DB) (now nbid aid uid : Nat) (amount : Int)
    (h : (place_bid db now nbid aid uid amount).1 = false) :
    (place_bid db now nbid aid uid amount).2 = db := by
  cases hg : get_auction db aid with
  | none => simp [place_bid, place_bid_commit, hg]
  | some a =>
    cases hact : is_active a now with
    | false => simp [place_bid, place_bid_commit, hg, hact]
    | true =>
      cases hu : get_user db uid with
      | none => simp [place_bid, place_bid_commit, hg, hact, hu]
      | some u =>
        cases hb : u.is_blocked with
        | true => simp [place_bid, place_bid_commit, hg, hact, hu, hb]
        | false =>
          by_cases hp : uid ∈ a.participants
          · by_cases hamt : amount ≤ a.current_price
            · simp [place_bid, place_bid_commit, hg, hact, hu, hb, hp, hamt]
            · simp [place_bid, place_bid_commit, hg, hact, hu, hb, hp, hamt, add_bid] at h
          · simp [place_bid, place_bid_commit, hg, hact, hu, hb, hp]

/-- Witness for C10: a bid on an empty store fails and leaves the store
unchanged. -/
theorem C10_witness :
    (place_bid empty_db 0 0 1 1 5).1 = false ∧ (place_bid empty_db 0 0 1 1 5).2 = empty_db :=
  ⟨rfl, C10_place_bid_failure_atomic empty_db 0 0 1 1 5 rfl⟩

/-- C6: the price edit fails, leaving the state unchanged, for any
auction that already has a bid; for an existing auction with no bids it
returns true and sets both start_price and current_price to the new
value. -/
theorem C6_edit_price_guard (db : DB) (aid : Nat) (p : Int) :
    (∀ a, get_auction db aid = some a → a.bids ≠ [] →
        edit_auction_price db aid p = (false, db))
  ∧ (∀ a, get_auction db aid = some a → a.bids = [] →
        (edit_auction_price db aid p).1 = true ∧
        get_auction (edit_auction_price db aid p).2 aid =
          some { a with start_price := p, current_price := p }) := by
  constructor
  · intro a ha hb
    simp [edit_auction_price, ha, hb]
  · intro a ha hb
    have hred : edit_auction_price db aid p = update_auction_price db aid p := by
      simp [edit_auction_price, ha, hb]
    constructor
    · rw [hred]
      rfl
    · rw [hred, get_auction_update_price_self, ha]
      rfl

/-- Witness for C6: editing the bidless auction 1 to price 77
succeeds and moves both prices. -/
theorem C6_witness :
    get_auction sample_db 1 = some auction1 ∧ auction1.bids = [] ∧
    (edit_auction_price sample_db 1 77).1 = true ∧
    get_auction (edit_auction_price sample_db 1 77).2 1 =
      some { auction1 with start_price := 77, current_price := 77 } := by
  refine ⟨rfl, rfl, ?_, ?_⟩
  · exact ((C6_edit_price_guard sample_db 1 77).2 auction1 rfl rfl).1
  · exact ((C6_edit_price_guard sample_db 1 77).2 auction1 rfl rfl).2

/-- C7: end_auction succeeds exactly when the auction exists with
status active and the requester resolves to an admin user; on success
only the status changes, to completed, while every other field of the
auction, every other auction, and the users table are unchanged. -/
theorem C7_end_auction_frame (db : DB) (aid req : Nat) :
    ((end_auction db aid req).1 = true ↔
      ∃ a, get_auction db aid = some a ∧ a.status = AuctionStatus.active ∧
        ∃ u, get_user db req = some u ∧ u.is_admin = true)
  ∧ (∀ a, get_auction db aid = some a → (end_auction db aid req).1 = true →
      (end_auction db aid req).2.users = db.users ∧
      get_auction (end_auction db aid req).2 aid
        = some { a with status := AuctionStatus.completed } ∧
      ∀ oid, oid ≠ aid → get_auction (end_auction db aid req).2 oid = get_auction db oid) := by
  constructor
  · cases hg : get_auction db aid with
    | none => simp [end_auction, hg]
    | some a =>
      by_cases hst : a.status = AuctionStatus.active
      · cases hu : get_user db req with
        | none => simp [end_auction, hg, hst, hu]
        | some u =>
          cases hadm : u.is_admin with
          | false => simp [end_auction, hg, hst, hu, hadm]
          | true => simp [end_auction, hg, hst, hu, hadm, update_auction_status]
      · simp [end_auction, hg, hst]
  · intro a ha hs
    by_cases hst : a.status = AuctionStatus.active
    · cases hu : get_user db req with
      | none => simp [end_auction, ha, hst, hu] at hs
      | some u =>
        cases hadm : u.is_admin with
        | false => simp [end_auction, ha, hst, hu, hadm] at hs
        | true =>
          have hred : end_auction db aid req
              = update_auction_status db aid AuctionStatus.completed := by
            simp [end_auction, ha, hst, hu, hadm]
          refine ⟨by rw [hred]; rfl, ?_, ?_⟩
          · rw [hred, get_auction_update_status_self, ha]
            rfl
          · intro oid hoid
            rw [hred]
            exact get_auction_update_status_other db aid oid AuctionStatus.completed hoid
    · simp [end_auction, ha, hst] at hs

/-- Witness for C7: admin 9 ends the active auction 1; only the status
changes and other lookups are untouched. -/
theorem C7_witness :
    (end_auction sample_db 1 9).1 = true ∧
    (end_auction sample_db 1 9).2.users = sample_db.users ∧
    get_auction (end_auction sample_db 1 9).2 1
      = some { auction1 with status := AuctionStatus.completed } ∧
    get_auction (end_auction sample_db 1 9).2 2 = get_auction sample_db 2 := by
  have h := (C7_end_auction_frame sample_db 1 9).2 auction1 rfl rfl
  exact ⟨rfl, h.1, h.2.1, h.2.2 2 (by decide)⟩

/-- C9: for an active auction and an unblocked existing user, joining
twice returns true both times, the second call leaves the state
unchanged, and the participant rows hold exactly one occurrence of the
user id. The count hypothesis encodes that participants is a set (the
sqlite primary key on (auction_id, user_id)). -/
theorem C9_join_idempotent (db : DB) (now aid uid : Nat) (a : Auction) (u : User)
    (ha : get_auction db aid = some a) (hact : is_active a now = true)
    (hu : get_user db uid = some u) (hb : u.is_blocked = false)
    (hcount : a.participants.count uid ≤ 1) :
    (join_auction db now aid uid).1 = true
  ∧ (join_auction (join_auction db now aid uid).2 now aid uid).1 = true
  ∧ (join_auction (join_auction db now aid uid).2 now aid uid).2
      = (join_auction db now aid uid).2
  ∧ ∀ b, get_auction (join_auction (join_auction db now aid uid).2 now aid uid).2 aid
        = some b → b.participants.count uid = 1 := by
  have hj1 : join_auction db now aid uid = add_participant db aid uid := by
    simp [join_auction, ha, hact, hu, hb]
  have hga1 : get_auction (add_participant db aid uid).2 aid
      = some (if uid ∈ a.participants then a
              else { a with participants := a.participants ++ [uid] }) := by
    rw [get_auction_add_participant, ha]
    rfl
  have hstat : is_active (if uid ∈ a.participants then a
      else { a with participants := a.participants ++ [uid] }) now = true := by
    by_cases hm : uid ∈ a.participants
    · rw [if_pos hm]; exact hact
    · rw [if_neg hm]
      simpa [is_active] using hact
  have hu1 : get_user (add_participant db aid uid).2 uid = some u := hu
  have hj2 : join_auction (add_participant db aid uid).2 now aid uid
      = add_participant (add_participant db aid uid).2 aid uid := by
    simp [join_auction, hga1, hstat, hu1, hb]
  have hgid : ∀ c : Auction, ((if uid ∈ c.participants then c
      else { c with participants := c.participants ++ [uid] }) : Auction).auction_id
      = c.auction_id := by
    intro c
    by_cases hm : uid ∈ c.participants <;> simp [hm]
  have hgidem : ∀ c : Auction,
      (fun c : Auction => if uid ∈ c.participants then c
        else { c with participants := c.participants ++ [uid] })
      ((fun c : Auction => if uid ∈ c.participants then c
        else { c with participants := c.participants ++ [uid] }) c)
      = (fun c : Auction => if uid ∈ c.participants then c
        else { c with participants := c.participants ++ [uid] }) c := by
    intro c
    by_cases hm : uid ∈ c.participants
    · simp [hm]
    · simp only [if_neg hm]
      rw [if_pos (by simp)]
  have hdb2 : (add_participant (add_participant db aid uid).2 aid uid).2
      = (add_participant db aid uid).2 := by
    refine add_participant_snd_eq_self _ aid uid ?_
    exact update_matching_idem db.auctions aid _ hgid hgidem
  refine ⟨by rw [hj1]; rfl, by rw [hj1, hj2]; rfl, by rw [hj1, hj2, hdb2], ?_⟩
  intro b hbfind
  rw [hj1, hj2, hdb2, hga1] at hbfind
  cases hbfind
  by_cases hm : uid ∈ a.participants
  · rw [if_pos hm]
    have h1 : 0 < a.participants.count uid := List.count_pos_iff.mpr hm
    omega
  · rw [if_neg hm]
    have h0 : a.participants.count uid = 0 := by
      rw [List.count_eq_zero]
      exact hm
    simp [List.count_append, h0]

/-- Witness for C9: user 1 joins auction 1 twice. -/
theorem C9_witness :
    (join_auction sample_db 5 1 1).1 = true
  ∧ (join_auction (join_auction sample_db 5 1 1).2 5 1 1).1 = true
  ∧ (join_auction (join_auction sample_db 5 1 1).2 5 1 1).2
      = (join_auction sample_db 5 1 1).2
  ∧ auction1.participants.count 1 ≤ 1 := by
  have h := C9_join_idempotent sample_db 5 1 1 auction1 user1 rfl rfl rfl rfl (by decide)
  exact ⟨h.1, h.2.1, h.2.2.1, by decide⟩

/-- C4: create_auction always returns the new id with the new auction
persisted and raises no error: if no auction is active the new row is
active with end_time = creation time + duration, otherwise it is
scheduled with no end time. -/
theorem C4_create_auction_correct (db : DB) (now new_id creator : Nat) (price : Int)
    (dur : Nat) (hfresh : ∀ a ∈ db.auctions, a.auction_id ≠ new_id) :
    (create_auction db now new_id creator price dur).1 = new_id
  ∧ ∃ a, get_auction (create_auction db now new_id creator price dur).2 new_id = some a
      ∧ a.auction_id = new_id
      ∧ (get_active_auctions db = [] →
          a.status = AuctionStatus.active ∧ a.end_time = some (now + dur * minutesPerHour))
      ∧ (get_active_auctions db ≠ [] →
          a.status = AuctionStatus.scheduled ∧ a.end_time = none) := by
  refine ⟨rfl, ?_⟩
  have hfind : ∀ x : Auction, x.auction_id = new_id →
      get_auction (repo_create_auction db x) new_id = some x := by
    intro x hx
    unfold repo_create_auction get_auction
    refine find_append_singleton _ _ _ ?_ (by simp [hx])
    intro c hc
    simp [hfresh c hc]
  cases hA : get_active_auctions db with
  | nil =>
    have hred : (create_auction db now new_id creator price dur).2
        = repo_create_auction db (auction_post_init
            { auction_id := new_id, start_price := price, current_price := price,
              status := AuctionStatus.active, creator_id := creator, duration_hours := dur,
              end_time := some (now + dur * minutesPerHour), created_at := now,
              participants := [], bids := [] }) := by
      simp [create_auction, hA]
    refine ⟨_, by rw [hred]; exact hfind _ (by simp [auction_post_init]), ?_, ?_, ?_⟩
    · simp [auction_post_init]
    · intro _
      constructor
      · simp [auction_post_init]
      · simp [auction_post_init]
    · intro hne
      exact absurd rfl hne
  | cons x l =>
    have hred : (create_auction db now new_id creator price dur).2
        = repo_create_auction db (auction_post_init
            { auction_id := new_id, start_price := price, current_price := price,
              status := AuctionStatus.scheduled, creator_id := creator, duration_hours := dur,
              end_time := none, created_at := now,
              participants := [], bids := [] }) := by
      simp [create_auction, hA]
    refine ⟨_, by rw [hred]; exact hfind _ (by simp [auction_post_init]), ?_, ?_, ?_⟩
    · simp [auction_post_init]
    · intro hnil
      simp at hnil
    · intro _
      constructor
      · simp [auction_post_init]
      · simp [auction_post_init]

/-- Witness for C4: creating on an empty store yields an active auction
ending 120 minutes after creation for a 2 hour duration. -/
theorem C4_witness :
    (∀ a ∈ empty_db.auctions, a.auction_id ≠ 5) ∧
    (create_auction empty_db 0 5 9 100 2).1 = 5 ∧
    ∃ a, get_auction (create_auction empty_db 0 5 9 100 2).2 5 = some a ∧
      a.status = AuctionStatus.active ∧ a.end_time = some 120 := by
  have hfresh : ∀ a ∈ empty_db.auctions, a.auction_id ≠ 5 := by
    intro a ha
    cases ha
  have h := C4_create_auction_correct empty_db 0 5 9 100 2 hfresh
  rcases h.2 with ⟨a, hga, hid, hact, hsched⟩
  have hnil : get_active_auctions empty_db = [] := rfl
  exact ⟨hfresh, h.1, a, hga, (hact hnil).1, (hact hnil).2⟩

/-- Counterexample for C5: create_auction called with a creator id
that resolves to no user, a start price of 0 (not strictly positive)
and a duration of 0 hours still creates and persists an auction,
contradicting the claim that such a call is rejected before any
persistence write with no auction created. -/
theorem C5_counterexample :
    get_user empty_db 7 = none ∧ ¬((0:Int) > 0) ∧ (0:Nat) < 1 ∧
    (create_auction empty_db 0 1 7 0 0).2.auctions.length = 1 := by
  refine ⟨rfl, by decide, by decide, rfl⟩

/-- C5 amended: create_auction itself performs no validation of the
creator, the start price or the duration: every call persists exactly
one new auction row and returns the new id. (In the source, admin,
positive-price and minimum-duration checks live in the chat
conversation handlers, which run before the engine is invoked and are
outside the engine.) -/
theorem C5_create_no_validation (db : DB) (now new_id creator : Nat) (price : Int)
    (dur : Nat) :
    (create_auction db now new_id creator price dur).1 = new_id
  ∧ (create_auction db now new_id creator price dur).2.auctions.length
      = db.auctions.length + 1 := by
  refine ⟨rfl, ?_⟩
  cases hA : get_active_auctions db with
  | nil => simp [create_auction, hA, repo_create_auction]
  | cons a l => simp [create_auction, hA, repo_create_auction]

/-- Counterexample for C2: with auction 1 active (its end time not yet
reached) and auction 2 scheduled, activate_scheduled_auction on
auction 2 returns true instead of false, after which two auctions have
status active. -/
theorem C2_counterexample :
    is_active auction1 10 = true ∧
    (activate_scheduled_auction two_lane_db 10 2).1 = true ∧
    active_count (activate_scheduled_auction two_lane_db 10 2).2 = 2 := by
  refine ⟨rfl, rfl, rfl⟩

/-- C2 amended: activate_scheduled_auction returns false, changing
nothing, exactly when its target is absent or not scheduled; it does
not check whether some auction is currently active. The at-most-one
active invariant therefore holds only for call sequences made of
create_auction calls and scheduler ticks (the tick activates only when
no auction is active), which is how activation is invoked in the
source. -/
theorem C2_single_active_amended :
    (∀ (db : DB) (now aid : Nat),
      (∀ a, get_auction db aid = some a → a.status ≠ AuctionStatus.scheduled) →
        activate_scheduled_auction db now aid = (false, db))
  ∧ (∀ (db : DB) (ops : List EngineOp), WF db → at_most_one_active db →
        at_most_one_active (run_ops db ops)) := by
  constructor
  · exact fun db now aid h => activate_false_of_not_scheduled db now aid h
  · intro db ops hWF h1
    exact (run_ops_preserves ops db ⟨hWF, h1⟩).2

/-- Witness for C2 amended: an activation aimed at a missing auction
fails and changes nothing, and running a tick on the sample store keeps
the invariant. -/
theorem C2_witness :
    activate_scheduled_auction empty_db 0 3 = (false, empty_db) ∧
    at_most_one_active (run_ops sample_db [EngineOp.tickOp 7]) := by
  constructor
  · refine C2_single_active_amended.1 empty_db 0 3 ?_
    intro a ha
    cases ha
  · exact C2_single_active_amended.2 sample_db [EngineOp.tickOp 7]
      (show (auction_ids sample_db).Nodup by decide)
      (show active_count sample_db ≤ 1 by decide)

/-- C3 (evidence of the code bug): in the interleaving where both
place_bid calls read the auction before either add_bid commits, the
bids of 110 and 105 on the auction priced 100 both return true, and the
final current price is 105 even though 110 was accepted: the maximum
accepted amount does not win. -/
theorem C3_race_lost_update :
    (place_bid_race sample_db 5 1 1 110 2 105).1 = true
  ∧ (place_bid_race sample_db 5 1 1 110 2 105).2.1 = true
  ∧ (get_auction (place_bid_race sample_db 5 1 1 110 2 105).2.2 1).map
      (fun a => a.current_price) = some 105
  ∧ (get_auction (place_bid_race sample_db 5 1 1 110 2 105).2.2 1).map
      (fun a => a.bids.map (fun b => b.amount)) = some [110, 105] := by
  refine ⟨rfl, rfl, rfl, rfl⟩

/-! Lemmas specific to the scheduler tick. -/

lemma get_auction_id_eq (db : DB) (aid : Nat) (a : Auction)
    (ha : get_auction db aid = some a) : a.auction_id = aid := by
  unfold get_auction at ha
  have h2 := List.find?_some ha
  simpa using h2

lemma get_auction_mem (db : DB) (aid : Nat) (a : Auction)
    (ha : get_auction db aid = some a) : a ∈ db.auctions := by
  unfold get_auction at ha
  exact List.mem_of_find?_eq_some ha

lemma check_expired_preserves_not_active (db : DB) (now aid : Nat) (a : Auction)
    (hWF : WF db) (ha : get_auction db aid = some a)
    (hs : a.status ≠ AuctionStatus.active) :
    get_auction (check_expired_auctions db now) aid = some a := by
  have hids : ∀ c ∈ get_active_auctions db, c.auction_id ≠ aid := by
    intro c hc e
    have hc2 := (mem_get_active db c).mp hc
    have h2 := get_auction_of_mem db hWF c hc2.1
    rw [e, ha] at h2
    injection h2 with h3
    exact hs (by rw [h3]; exact hc2.2)
  exact (get_auction_check_expired_fold_other now aid (get_active_auctions db) db hids).trans ha

lemma check_scheduled_preserves_not_scheduled (db : DB) (now aid : Nat) (a : Auction)
    (hWF : WF db) (ha : get_auction db aid = some a)
    (hs : a.status ≠ AuctionStatus.scheduled) :
    get_auction (check_scheduled_auctions db now) aid = get_auction db aid := by
  cases hA : get_active_auctions db with
  | cons x l => simp [check_scheduled_auctions, hA]
  | nil =>
    cases hS : get_scheduled_auctions db with
    | nil => simp [check_scheduled_auctions, hA, hS]
    | cons next rest =>
      by_cases hd : 1 ≤ now - next.created_at
      · simp only [check_scheduled_auctions, hA, hS, if_pos hd]
        have hnextmem : next ∈ get_scheduled_auctions db := by
          rw [hS]
          exact List.mem_cons_self _ _
        have hnext := (mem_get_scheduled db next).mp hnextmem
        have hne : aid ≠ next.auction_id := by
          intro e
          have h2 := get_auction_of_mem db hWF next hnext.1
          rw [← e, ha] at h2
          injection h2 with h3
          exact hs (by rw [h3]; exact hnext.2)
        rw [activate_other db now next.auction_id aid hne]
      · simp [check_scheduled_auctions, hA, hS, if_neg hd]

lemma scheduled_head_min (db : DB) (next : Auction) (rest : List Auction)
    (h : get_scheduled_auctions db = next :: rest) :
    ∀ c ∈ db.auctions, c.status = AuctionStatus.scheduled →
      next.created_at ≤ c.created_at := by
  intro c hc hcs
  have hmem : c ∈ get_scheduled_auctions db := (mem_get_scheduled db c).mpr ⟨hc, hcs⟩
  rw [h] at hmem
  rcases List.mem_cons.mp hmem with rfl | h2
  · exact Nat.le_refl _
  · have hsorted : List.Sorted createdLE (get_scheduled_auctions db) :=
      List.sorted_insertionSort createdLE _
    rw [h] at hsorted
    exact (List.sorted_cons.mp hsorted).1 c h2

/-- C8: on a scheduler tick, an active auction whose end time has
passed becomes completed (with the rest of its row intact), a completed
auction is never touched again by any later tick, and a scheduled
auction is activated by a tick only when, after the expiry phase, no
auction is active, it is the earliest-created scheduled auction, and at
least one minute has elapsed since its creation. -/
theorem C8_scheduler_tick :
    (∀ (db : DB) (now aid t : Nat) (a : Auction), WF db →
        get_auction db aid = some a → a.status = AuctionStatus.active →
        a.end_time = some t → t ≤ now →
        get_auction (scheduler_tick db now) aid
          = some { a with status := AuctionStatus.completed })
  ∧ (∀ (db : DB) (now aid : Nat) (a : Auction), WF db →
        get_auction db aid = some a → a.status = AuctionStatus.completed →
        get_auction (scheduler_tick db now) aid = some a)
  ∧ (∀ (db : DB) (now aid : Nat) (a b : Auction), WF db →
        get_auction db aid = some a → a.status = AuctionStatus.scheduled →
        get_auction (scheduler_tick db now) aid = some b →
        b.status = AuctionStatus.active →
        get_active_auctions (check_expired_auctions db now) = [] ∧
        1 ≤ now - a.created_at ∧
        ∀ c ∈ (check_expired_auctions db now).auctions,
          c.status = AuctionStatus.scheduled → a.created_at ≤ c.created_at) := by
  refine ⟨?_, ?_, ?_⟩
  · intro db now aid t a hWF ha hst het htle
    have haid := get_auction_id_eq db aid a ha
    subst haid
    have hmem := get_auction_mem db a.auction_id a ha
    have hsnap : a ∈ get_active_auctions db := (mem_get_active db a).mpr ⟨hmem, hst⟩
    have hnd : ((get_active_auctions db).map (fun c => c.auction_id)).Nodup :=
      nodup_ids_sort_filter db.auctions hWF _
    have hexp : get_auction (check_expired_auctions db now) a.auction_id
        = some { a with status := AuctionStatus.completed } :=
      get_auction_check_expired_fold_hit now a t het htle _ db a hnd hsnap ha
    have hWF2 := WF_check_expired db now hWF
    unfold scheduler_tick
    rw [check_scheduled_preserves_not_scheduled (check_expired_auctions db now) now
      a.auction_id _ hWF2 hexp (by simp)]
    exact hexp
  · intro db now aid a hWF ha hst
    have haid := get_auction_id_eq db aid a ha
    subst haid
    have hexp : get_auction (check_expired_auctions db now) a.auction_id = some a :=
      check_expired_preserves_not_active db now a.auction_id a hWF ha
        (by rw [hst]; decide)
    have hWF2 := WF_check_expired db now hWF
    unfold scheduler_tick
    rw [check_scheduled_preserves_not_scheduled (check_expired_auctions db now) now
      a.auction_id a hWF2 hexp (by rw [hst]; decide)]
    exact hexp
  · intro db now aid a b hWF ha hst htick hbact
    have haid := get_auction_id_eq db aid a ha
    subst haid
    have hexp : get_auction (check_expired_auctions db now) a.auction_id = some a :=
      check_expired_preserves_not_active db now a.auction_id a hWF ha
        (by rw [hst]; decide)
    have hWF2 := WF_check_expired db now hWF
    unfold scheduler_tick at htick
    cases hA : get_active_auctions (check_expired_auctions db now) with
    | cons x l =>
      rw [check_scheduled_auctions, hA] at htick
      rw [hexp] at htick
      injection htick with h3
      rw [← h3] at hbact
      rw [hst] at hbact
      cases hbact
    | nil =>
      cases hS : get_scheduled_auctions (check_expired_auctions db now) with
      | nil =>
        simp only [check_scheduled_auctions, hA, hS] at htick
        rw [hexp] at htick
        injection htick with h3
        rw [← h3] at hbact
        rw [hst] at hbact
        cases hbact
      | cons next rest =>
        by_cases hd : 1 ≤ now - next.created_at
        · simp only [check_scheduled_auctions, hA, hS, if_pos hd] at htick
          by_cases he : a.auction_id = next.auction_id
          · have hnextmem : next ∈ get_scheduled_auctions (check_expired_auctions db now) := by
              rw [hS]
              exact List.mem_cons_self _ _
            have hnext := (mem_get_scheduled _ next).mp hnextmem
            have h2 := get_auction_of_mem _ hWF2 next hnext.1
            rw [← he, hexp] at h2
            injection h2 with h3
            refine ⟨rfl, ?_, ?_⟩
            · rw [h3]
              exact hd
            · intro c hc hcs
              rw [h3]
              exact scheduled_head_min _ next rest hS c hc hcs
          · rw [activate_other _ now next.auction_id a.auction_id he] at htick
            rw [hexp] at htick
            injection htick with h3
            rw [← h3] at hbact
            rw [hst] at hbact
            cases hbact
        · simp only [check_scheduled_auctions, hA, hS, if_neg hd] at htick
          rw [hexp] at htick
          injection htick with h3
          rw [← h3] at hbact
          rw [hst] at hbact
          cases hbact

/-- An active auction whose end time (minute 60) has passed. -/
def auction_expired : Auction :=
  { auction_id := 3, start_price := 10, current_price := 10,
    status := AuctionStatus.active, creator_id := 9, duration_hours := 1,
    end_time := some 60, created_at := 0, participants := [], bids := [] }

def expired_db : DB := { users := [admin9], auctions := [auction_expired] }

/-- Witness for C8: a tick at minute 100 completes the auction that
expired at minute 60. -/
theorem C8_witness :
    get_auction expired_db 3 = some auction_expired ∧
    get_auction (scheduler_tick expired_db 100) 3
      = some { auction_expired with status := AuctionStatus.completed } := by
  refine ⟨rfl, ?_⟩
  exact C8_scheduler_tick.1 expired_db 100 3 60 auction_expired
    (show (auction_ids expired_db).Nodup by decide) rfl rfl rfl (by decide)
